import Mathlib

/-!
Shallow embedding of the structured-document patcher/diff core implemented by
the scripts `reduce-cassandra.py`, `reduce-pulsar-memory.py`, `reduce-qdrant.py`,
`reduce-reservations.py` and `yaml-diff.py`.

Documents are modelled as the inductive `Node` (string / integer / boolean
scalars, ordered mappings as association lists, sequences).  Python `dict`
operations are modelled on association lists: assignment updates the first
occurrence of a key in place (Python dicts keep the first-insertion position)
and otherwise appends; lookup takes the last binding, which agrees with the
unique-key case and with Python's `dict(items)` (last write wins) otherwise.
Python `float` arithmetic on memory quantities is modelled with `ℚ`; Python's
`int()` truncation toward zero is `Rat.floor` composed with `Int.toNat` on the
non-negative values that arise here.  Fallible code paths (Python exceptions)
are modelled with `Option`.
-/

namespace MemReduce

/-- A parsed YAML node: scalar (string, integer, boolean), ordered mapping, or
sequence.  Mirrors the mapping-of-mappings document model the scripts mutate. -/
inductive Node where
  | str : String → Node
  | int : Int → Node
  | bool : Bool → Node
  | map : List (String × Node) → Node
  | seq : List Node → Node

mutual

/-- Structural (deep) equality of nodes, as Python `==`/`!=` compares parsed
YAML values by full structural equality. -/
def Node.beq : Node → Node → Bool
  | .str a, .str b => a == b
  | .int a, .int b => a == b
  | .bool a, .bool b => a == b
  | .map a, .map b => Node.beqPairs a b
  | .seq a, .seq b => Node.beqList a b
  | _, _ => false

/-- Structural equality of mapping entry lists. -/
def Node.beqPairs : List (String × Node) → List (String × Node) → Bool
  | [], [] => true
  | (k1, v1) :: r1, (k2, v2) :: r2 => k1 == k2 && Node.beq v1 v2 && Node.beqPairs r1 r2
  | _, _ => false

/-- Structural equality of node lists. -/
def Node.beqList : List Node → List Node → Bool
  | [], [] => true
  | a :: r1, b :: r2 => Node.beq a b && Node.beqList r1 r2
  | _, _ => false

end

/-- An ordered mapping, as the scripts see one: a `ruamel` CommentedMap,
modelled as an association list with insertion order preserved. -/
abbrev Mapping := List (String × Node)

/-- Python `d[k]` / `k in d`: lookup in an association list, last binding wins
(matches `dict(items)` semantics when duplicate keys arise, and plain lookup
when keys are unique). -/
def dlookup {α : Type} : List (String × α) → String → Option α
  | [], _ => none
  | (k', v) :: rest, k =>
      match dlookup rest k with
      | some v' => some v'
      | none => if k' = k then some v else none

/-- Python `d[k] = v`: update the first occurrence of `k` in place (Python
dicts keep a key's original insertion position), otherwise append at the end. -/
def dset {α : Type} : List (String × α) → String → α → List (String × α)
  | [], k, v => [(k, v)]
  | (k', v') :: rest, k, v =>
      if k' = k then (k, v) :: rest else (k', v') :: dset rest k v

/-- The function `Node.beq` decides structural equality (simultaneously for
nodes, node lists, and mapping entry lists). -/
theorem Node.beq_iff :
    (∀ a b : Node, Node.beq a b = true ↔ a = b) ∧
    (∀ a b : List Node, Node.beqList a b = true ↔ a = b) ∧
    (∀ a b : List (String × Node), Node.beqPairs a b = true ↔ a = b) := by
  refine Node.beq.mutual_induct
    (fun a b => Node.beq a b = true ↔ a = b)
    (fun a b => Node.beqList a b = true ↔ a = b)
    (fun a b => Node.beqPairs a b = true ↔ a = b)
    ?_ ?_ ?_ ?_ ?_ ?_ ?_ ?_ ?_ ?_ ?_ ?_
  · intro a b; simp [Node.beq]
  · intro a b; simp [Node.beq]
  · intro a b; simp [Node.beq]
  · intro a b ih; simpa [Node.beq] using ih
  · intro a b ih; simpa [Node.beq] using ih
  · intro t x h1 h2 h3 h4 h5
    cases t <;> cases x <;>
      first
        | exact (h1 _ _ rfl rfl).elim
        | exact (h2 _ _ rfl rfl).elim
        | exact (h3 _ _ rfl rfl).elim
        | exact (h4 _ _ rfl rfl).elim
        | exact (h5 _ _ rfl rfl).elim
        | simp [Node.beq]
  · simp [Node.beqPairs]
  · intro k1 v1 r1 k2 v2 r2 ih1 ih2
    simp [Node.beqPairs, ih1, ih2, and_assoc]
  · intro t x h1 h2
    cases t with
    | nil =>
      cases x with
      | nil => exact (h1 rfl rfl).elim
      | cons hd tl => simp [Node.beqPairs]
    | cons hd tl =>
      obtain ⟨k, v⟩ := hd
      cases x with
      | nil => simp [Node.beqPairs]
      | cons hd2 tl2 =>
        obtain ⟨k2, v2⟩ := hd2
        exact (h2 k v tl k2 v2 tl2 rfl rfl).elim
  · simp [Node.beqList]
  · intro a r1 b r2 ih1 ih2
    simp [Node.beqList, ih1, ih2]
  · intro t x h1 h2
    cases t with
    | nil =>
      cases x with
      | nil => exact (h1 rfl rfl).elim
      | cons hd tl => simp [Node.beqList]
    | cons hd tl =>
      cases x with
      | nil => simp [Node.beqList]
      | cons hd2 tl2 => exact (h2 hd tl hd2 tl2 rfl rfl).elim

instance : DecidableEq Node := fun a b =>
  decidable_of_iff (Node.beq a b = true) (Node.beq_iff.1 a b)

structure ChangeRecord where
  field : String
  old : Node
  new : Node
  deriving DecidableEq

/-- Python `if k not in m: m[k] = {}` followed by uses of `m[k]` as a dict:
returns the updated mapping and the child mapping at `k`.  `none` models the
`TypeError` Python raises when `m[k]` exists but is not a dict. -/
def ensureChildMap (m : Mapping) (k : String) : Option (Mapping × Mapping) :=
  match dlookup m k with
  | none => some (dset m k (Node.map []), [])
  | some (Node.map c) => some (m, c)
  | some _ => none

/-- The `deploy.resources` section shared verbatim by `update_cassandra`
(reduce-cassandra.py) and `update_service` (reduce-pulsar-memory.py), also
present in `update_qdrant`: create the missing `deploy`, `resources`,
`limits`, `reservations` mappings, read the old scalars with default
`"unset"`, write the new limit and reservation, and return the change records
in declaration order (limit first, then reservation). -/
def update_resources (svc : Mapping) (memory_limit memory_reservation : String) :
    Option (Mapping × List ChangeRecord) := do
  let (svc1, deploy) ← ensureChildMap svc "deploy"
  let (deploy1, resources) ← ensureChildMap deploy "resources"
  let (resources1, limits) ← ensureChildMap resources "limits"
  let (resources2, reservations) ← ensureChildMap resources1 "reservations"
  let old_limit := (dlookup limits "memory").getD (Node.str "unset")
  let old_reservation := (dlookup reservations "memory").getD (Node.str "unset")
  let limits1 := dset limits "memory" (Node.str memory_limit)
  let reservations1 := dset reservations "memory" (Node.str memory_reservation)
  let resources3 :=
    dset (dset resources2 "limits" (Node.map limits1)) "reservations" (Node.map reservations1)
  let deploy2 := dset deploy1 "resources" (Node.map resources3)
  let svc2 := dset svc1 "deploy" (Node.map deploy2)
  return (svc2,
    [⟨"memory limit", old_limit, Node.str memory_limit⟩,
     ⟨"memory reservation", old_reservation, Node.str memory_reservation⟩])

/-- C1: on a service with `deploy.resources.limits.memory = "1000M"` and no
`reservations` mapping, setting the limit to `"600M"` and the reservation to
`"500M"` creates the missing `reservations` mapping instead of rejecting the
write, sets both scalar fields, and emits the change records in declaration
order: limit (old `"1000M"`, new `"600M"`) then reservation (old the sentinel
`"unset"`, new `"500M"`); starting from an entirely empty service, all four
intermediate mappings (`deploy`, `resources`, `limits`, `reservations`) are
created on demand and both records carry old `"unset"`. -/
theorem update_resources_creates_missing_and_records_in_order :
    update_resources
      [("deploy", Node.map [("resources", Node.map
          [("limits", Node.map [("memory", Node.str "1000M")])])])]
      "600M" "500M" =
      some ([("deploy", Node.map [("resources", Node.map
          [("limits", Node.map [("memory", Node.str "600M")]),
           ("reservations", Node.map [("memory", Node.str "500M")])])])],
        [⟨"memory limit", Node.str "1000M", Node.str "600M"⟩,
         ⟨"memory reservation", Node.str "unset", Node.str "500M"⟩]) ∧
    update_resources [] "600M" "500M" =
      some ([("deploy", Node.map [("resources", Node.map
          [("limits", Node.map [("memory", Node.str "600M")]),
           ("reservations", Node.map [("memory", Node.str "500M")])])])],
        [⟨"memory limit", Node.str "unset", Node.str "600M"⟩,
         ⟨"memory reservation", Node.str "unset", Node.str "500M"⟩]) := by
  constructor <;> rfl

/-! ### Memory quantity parser (`parse_memory`, reduce-reservations.py) -/

/-- The whitespace characters removed by Python `str.strip()` and matched by
`\s` on ASCII text. -/
def isPySpace (c : Char) : Bool :=
  c = ' ' || c = '\t' || c = '\n' || c = '\r' || c = '\x0b' || c = '\x0c'

/-- Python `str.strip()` on a character list. -/
def pyStrip (cs : List Char) : List Char :=
  ((cs.dropWhile isPySpace).reverse.dropWhile isPySpace).reverse

/-- Numeric value of a list of decimal digits, most significant first. -/
def digitsVal (ds : List Char) : Nat :=
  ds.foldl (fun acc c => 10 * acc + (c.toNat - 48)) 0

/-- The unit letter captured by the group `([KMGT]?)` of the quantity regex. -/
inductive MemUnit where
  | none | K | M | G | T
  deriving DecidableEq

/-- The multiplier table of `parse_memory`:
`{'': 1, 'K': 1/1024, 'M': 1, 'G': 1024, 'T': 1024*1024}`. -/
def unitMult : MemUnit → ℚ
  | .none => 1
  | .K => 1 / 1024
  | .M => 1
  | .G => 1024
  | .T => 1024 * 1024

/-- Match `([KMGT]?)B?$` against the tail of the (upper-cased) input. -/
def matchSuffix : List Char → Option MemUnit
  | [] => some .none
  | ['B'] => some .none
  | ['K'] => some .K
  | ['K', 'B'] => some .K
  | ['M'] => some .M
  | ['M', 'B'] => some .M
  | ['G'] => some .G
  | ['G', 'B'] => some .G
  | ['T'] => some .T
  | ['T', 'B'] => some .T
  | _ => Option.none

/-- After the numeric group: skip `\s*`, then match the unit and optional `B`. -/
def matchAfterNumber (v : ℚ) (rest : List Char) : Option (ℚ × MemUnit) :=
  (matchSuffix (rest.dropWhile isPySpace)).map fun u => (v, u)

/-- Match the regex `^(\d+(?:\.\d+)?)\s*([KMGT]?)B?$` of `parse_memory`
against an already stripped and upper-cased character list, returning the
captured numeric value (as an exact rational) and the unit letter. -/
def matchMem (cs : List Char) : Option (ℚ × MemUnit) :=
  let intDigits := cs.takeWhile Char.isDigit
  let rest := cs.dropWhile Char.isDigit
  if intDigits = [] then Option.none
  else
    match rest with
    | '.' :: r =>
        let fracDigits := r.takeWhile Char.isDigit
        if fracDigits = [] then Option.none
        else matchAfterNumber ((digitsVal intDigits : ℚ) +
               (digitsVal fracDigits : ℚ) / (10 : ℚ) ^ fracDigits.length)
               (r.dropWhile Char.isDigit)
    | rest' => matchAfterNumber (digitsVal intDigits : ℚ) rest'

/-- `parse_memory` (reduce-reservations.py lines 18-31) on a string scalar:
strip and upper-case the text, match the quantity regex, and truncate
`value * multiplier` to an integer number of megabytes.  `Option.none` models
the `ValueError` raised on non-matching text.  Python `float` arithmetic is
modelled exactly by rationals; `int()` truncation is the floor on the
non-negative values produced by the regex. -/
def parse_memory (s : String) : Option Nat :=
  (matchMem ((pyStrip s.data).map Char.toUpper)).map fun p =>
    (⌊p.1 * unitMult p.2⌋).toNat

/-- `parse_memory` as applied to a YAML node: Python `isinstance(mem_str, int)`
holds for ints and booleans (a Python `bool` is an `int`, `True` counting
as 1), which are returned unchanged; strings are matched against the regex;
`str()` of a mapping or sequence starts with a brace or bracket and never
matches, so those raise `ValueError` (`Option.none`). -/
def parse_memory_node : Node → Option Int
  | .int n => some n
  | .bool b => some (if b then 1 else 0)
  | .str s => (parse_memory s).map Int.ofNat
  | .map _ => Option.none
  | .seq _ => Option.none

/-- A digit character is unchanged by `Char.toUpper`. -/
theorem toUpper_of_isDigit {c : Char} (h : c.isDigit = true) : c.toUpper = c := by
  simp only [Char.isDigit, Bool.and_eq_true, decide_eq_true_eq] at h
  have hv : c.val.toNat ≤ 57 := by
    rw [UInt32.le_def, BitVec.le_def] at h
    exact h.2
  unfold Char.toUpper
  rw [if_neg]
  intro hcon
  have h97 : 97 ≤ c.val.toNat := hcon.1
  omega

/-- A digit character is not Python whitespace. -/
theorem isPySpace_of_isDigit {c : Char} (h : c.isDigit = true) :
    isPySpace c = false := by
  simp only [Char.isDigit, Bool.and_eq_true, decide_eq_true_eq] at h
  have h1 : 48 ≤ c.val.toNat := by
    rw [UInt32.le_def, BitVec.le_def] at h
    exact h.1
  have h2 : c.val.toNat ≤ 57 := by
    rw [UInt32.le_def, BitVec.le_def] at h
    exact h.2
  simp only [isPySpace, Bool.or_eq_false_iff, decide_eq_false_iff_not]
  refine ⟨⟨⟨⟨⟨?_, ?_⟩, ?_⟩, ?_⟩, ?_⟩, ?_⟩ <;>
    (intro hc; subst hc; revert h1; decide)

/-- `dropWhile` is the identity on a list none of whose elements satisfy the
predicate. -/
theorem dropWhile_of_all {α : Type} (p : α → Bool) (l : List α)
    (h : ∀ c ∈ l, p c = false) : l.dropWhile p = l := by
  cases l with
  | nil => rfl
  | cons a t => simp [List.dropWhile, h a (List.mem_cons_self a t)]

/-- `pyStrip` is the identity on a list with no Python whitespace. -/
theorem pyStrip_of_all (cs : List Char) (h : ∀ c ∈ cs, isPySpace c = false) :
    pyStrip cs = cs := by
  unfold pyStrip
  rw [dropWhile_of_all _ _ h, dropWhile_of_all, List.reverse_reverse]
  intro c hc
  exact h c (by simpa using hc)

/-- `Char.toUpper` is the identity on a list of digits. -/
theorem map_toUpper_digits (ds : List Char) (hd : ∀ c ∈ ds, c.isDigit = true) :
    ds.map Char.toUpper = ds := by
  induction ds with
  | nil => rfl
  | cons a t ih =>
      simp only [List.map_cons, toUpper_of_isDigit (hd a (by simp)), List.cons.injEq, true_and]
      exact ih fun c hc => hd c (by simp [hc])

/-- `matchMem` on a digit block followed by a non-digit, non-dot tail: the
captured number is the digit block and matching continues in the tail. -/
theorem matchMem_digits_cons (ds : List Char) (c : Char) (tl : List Char)
    (hne : ds ≠ []) (hd : ∀ c' ∈ ds, c'.isDigit = true)
    (hc1 : c.isDigit = false) (hc2 : c ≠ '.') :
    matchMem (ds ++ c :: tl) = matchAfterNumber (digitsVal ds : ℚ) (c :: tl) := by
  unfold matchMem
  rw [List.takeWhile_append_of_pos (by simpa using hd),
      List.dropWhile_append_of_pos (by simpa using hd)]
  simp only [List.takeWhile_cons, List.dropWhile_cons, hc1, Bool.false_eq_true, if_false,
    List.append_nil, if_neg hne]
  split
  · rename_i r heq
    exact absurd (List.cons_eq_cons.mp heq).1 hc2
  · rfl

/-- `matchMem` on a bare digit block: the whole input is the number and the
unit is empty. -/
theorem matchMem_digits_nil (ds : List Char) (hne : ds ≠ [])
    (hd : ∀ c ∈ ds, c.isDigit = true) :
    matchMem ds = some ((digitsVal ds : ℚ), MemUnit.none) := by
  have h1 : ds.takeWhile Char.isDigit = ds := by
    conv_lhs => rw [← List.append_nil ds]
    rw [List.takeWhile_append_of_pos (by simpa using hd)]
    simp
  have h2 : ds.dropWhile Char.isDigit = [] := by
    conv_lhs => rw [← List.append_nil ds]
    rw [List.dropWhile_append_of_pos (by simpa using hd)]
    rfl
  unfold matchMem
  rw [h1, h2, if_neg hne]
  rfl

/-- `parse_memory` on a nonempty digit block followed by a unit suffix. -/
theorem parse_memory_digits (ds suf : List Char) (u : MemUnit)
    (hne : ds ≠ []) (hd : ∀ c ∈ ds, c.isDigit = true)
    (hsp : ∀ c ∈ suf, isPySpace c = false)
    (hhead : ∀ c tl, suf.map Char.toUpper = c :: tl → c.isDigit = false ∧ c ≠ '.')
    (hsuf : matchSuffix ((suf.map Char.toUpper).dropWhile isPySpace) = some u) :
    parse_memory (String.mk (ds ++ suf)) =
      some ((⌊(digitsVal ds : ℚ) * unitMult u⌋).toNat) := by
  unfold parse_memory
  have hdata : (String.mk (ds ++ suf)).data = ds ++ suf := rfl
  rw [hdata, pyStrip_of_all _ (by
    intro c hc
    rcases List.mem_append.1 hc with h | h
    · exact isPySpace_of_isDigit (hd c h)
    · exact hsp c h)]
  rw [List.map_append, map_toUpper_digits ds hd]
  cases hsm : suf.map Char.toUpper with
  | nil =>
      rw [hsm] at hsuf
      simp only [List.dropWhile_nil, matchSuffix] at hsuf
      rw [List.append_nil, matchMem_digits_nil ds hne hd]
      simp [← Option.some_inj.1 hsuf]
  | cons c tl =>
      obtain ⟨hdg, hdot⟩ := hhead c tl hsm
      rw [matchMem_digits_cons ds c tl hne hd hdg hdot]
      unfold matchAfterNumber
      rw [← hsm, hsuf]
      rfl

/-- Truncating `n * (1/1024)` to an integer is natural division by 1024. -/
theorem floorK (n : Nat) : (⌊(n : ℚ) * (1 / 1024)⌋).toNat = n / 1024 := by
  rw [mul_one_div, Int.floor_toNat]
  simpa using Nat.floor_div_eq_div (α := ℚ) n 1024

/-- Truncating `n * 1` to an integer is the identity. -/
theorem floorM (n : Nat) : (⌊(n : ℚ) * 1⌋).toNat = n := by
  simp

/-- Truncating `n * 1024` to an integer is multiplication by 1024. -/
theorem floorG (n : Nat) : (⌊(n : ℚ) * 1024⌋).toNat = n * 1024 := by
  rw [show ((n : ℚ) * 1024) = ((n * 1024 : ℕ) : ℚ) by push_cast; ring, Int.floor_natCast]
  exact Int.toNat_natCast _

/-- Truncating `n * (1024 * 1024)` to an integer is multiplication. -/
theorem floorT (n : Nat) : (⌊(n : ℚ) * (1024 * 1024)⌋).toNat = n * (1024 * 1024) := by
  rw [show ((n : ℚ) * (1024 * 1024)) = ((n * (1024 * 1024) : ℕ) : ℚ) by push_cast; ring,
    Int.floor_natCast]
  exact Int.toNat_natCast _

/-- Helper to discharge the head condition of `parse_memory_digits` for a
concrete suffix. -/
theorem head_cond_of_concrete (a : Char) (as : List Char)
    (h1 : a.isDigit = false) (h2 : a ≠ '.') :
    ∀ c tl, (a :: as) = c :: tl → c.isDigit = false ∧ c ≠ '.' := by
  intro c tl h
  obtain ⟨h3, -⟩ := List.cons_eq_cons.mp h
  subst h3
  exact ⟨h1, h2⟩

/-- C2: the memory-quantity parser maps `"600M"` to 600, `"1G"` to 1024, the
bare integer `"1536"` to 1536, `"2T"` to 2097152, and fails on `"bogus"`
(`Option.none` models the `ValueError`); in general, on a nonempty block of
digits denoting `n`, a `K` suffix yields `n / 1024` (integer truncation), `M`
yields `n`, `G` yields `n * 1024`, `T` yields `n * 1024 * 1024`, a bare
number or a trailing `B` with no unit prefix yields `n` (already megabytes),
and units are matched case-insensitively (`k` behaves as `K`). -/
theorem parse_memory_spec :
    parse_memory "600M" = some 600 ∧
    parse_memory "1G" = some 1024 ∧
    parse_memory "1536" = some 1536 ∧
    parse_memory "2T" = some 2097152 ∧
    parse_memory "bogus" = Option.none ∧
    (∀ ds : List Char, ds ≠ [] → (∀ c ∈ ds, c.isDigit = true) →
      parse_memory (String.mk (ds ++ ['K'])) = some (digitsVal ds / 1024) ∧
      parse_memory (String.mk (ds ++ ['k'])) = some (digitsVal ds / 1024) ∧
      parse_memory (String.mk (ds ++ ['M'])) = some (digitsVal ds) ∧
      parse_memory (String.mk (ds ++ ['G'])) = some (digitsVal ds * 1024) ∧
      parse_memory (String.mk (ds ++ ['T'])) = some (digitsVal ds * (1024 * 1024)) ∧
      parse_memory (String.mk ds) = some (digitsVal ds) ∧
      parse_memory (String.mk (ds ++ ['M', 'B'])) = some (digitsVal ds) ∧
      parse_memory (String.mk (ds ++ ['B'])) = some (digitsVal ds)) := by
  refine ⟨?_, ?_, ?_, ?_, ?_, ?_⟩
  · rw [show ("600M" : String) = String.mk (['6', '0', '0'] ++ ['M']) from rfl,
      parse_memory_digits ['6', '0', '0'] ['M'] MemUnit.M (by decide) (by decide) (by decide)
        (head_cond_of_concrete 'M' [] (by decide) (by decide)) rfl,
      show digitsVal ['6', '0', '0'] = 600 from rfl,
      show unitMult MemUnit.M = 1 from rfl, floorM]
  · rw [show ("1G" : String) = String.mk (['1'] ++ ['G']) from rfl,
      parse_memory_digits ['1'] ['G'] MemUnit.G (by decide) (by decide) (by decide)
        (head_cond_of_concrete 'G' [] (by decide) (by decide)) rfl,
      show digitsVal ['1'] = 1 from rfl,
      show unitMult MemUnit.G = 1024 from rfl, floorG]
  · rw [show ("1536" : String) = String.mk (['1', '5', '3', '6'] ++ []) from rfl,
      parse_memory_digits ['1', '5', '3', '6'] [] MemUnit.none (by decide) (by decide)
        (by simp) (by intro c tl h; exact absurd h (by simp)) rfl,
      show digitsVal ['1', '5', '3', '6'] = 1536 from rfl,
      show unitMult MemUnit.none = 1 from rfl, floorM]
  · rw [show ("2T" : String) = String.mk (['2'] ++ ['T']) from rfl,
      parse_memory_digits ['2'] ['T'] MemUnit.T (by decide) (by decide) (by decide)
        (head_cond_of_concrete 'T' [] (by decide) (by decide)) rfl,
      show digitsVal ['2'] = 2 from rfl,
      show unitMult MemUnit.T = 1024 * 1024 from rfl, floorT]
  · rfl
  · intro ds hne hd
    refine ⟨?_, ?_, ?_, ?_, ?_, ?_, ?_, ?_⟩
    · rw [parse_memory_digits ds ['K'] MemUnit.K hne hd (by decide)
        (head_cond_of_concrete 'K' [] (by decide) (by decide)) rfl,
        show unitMult MemUnit.K = 1 / 1024 from rfl, floorK]
    · rw [parse_memory_digits ds ['k'] MemUnit.K hne hd (by decide)
        (head_cond_of_concrete 'K' [] (by decide) (by decide)) rfl,
        show unitMult MemUnit.K = 1 / 1024 from rfl, floorK]
    · rw [parse_memory_digits ds ['M'] MemUnit.M hne hd (by decide)
        (head_cond_of_concrete 'M' [] (by decide) (by decide)) rfl,
        show unitMult MemUnit.M = 1 from rfl, floorM]
    · rw [parse_memory_digits ds ['G'] MemUnit.G hne hd (by decide)
        (head_cond_of_concrete 'G' [] (by decide) (by decide)) rfl,
        show unitMult MemUnit.G = 1024 from rfl, floorG]
    · rw [parse_memory_digits ds ['T'] MemUnit.T hne hd (by decide)
        (head_cond_of_concrete 'T' [] (by decide) (by decide)) rfl,
        show unitMult MemUnit.T = 1024 * 1024 from rfl, floorT]
    · rw [show String.mk ds = String.mk (ds ++ []) by rw [List.append_nil],
        parse_memory_digits ds [] MemUnit.none hne hd (by simp)
          (by intro c tl h; exact absurd h (by simp)) rfl,
        show unitMult MemUnit.none = 1 from rfl, floorM]
    · rw [parse_memory_digits ds ['M', 'B'] MemUnit.M hne hd (by decide)
        (head_cond_of_concrete 'M' ['B'] (by decide) (by decide)) rfl,
        show unitMult MemUnit.M = 1 from rfl, floorM]
    · rw [parse_memory_digits ds ['B'] MemUnit.none hne hd (by decide)
        (head_cond_of_concrete 'B' [] (by decide) (by decide)) rfl,
        show unitMult MemUnit.none = 1 from rfl, floorM]

/-- Witness for C2: the general clauses of `parse_memory_spec` instantiated at
the concrete digit block `"5"`. -/
theorem parse_memory_spec_witness :
    (['5'] : List Char) ≠ [] ∧
    parse_memory (String.mk (['5'] ++ ['G'])) = some (digitsVal ['5'] * 1024) :=
  ⟨by decide, (parse_memory_spec.2.2.2.2.2 ['5'] (by decide) (by decide)).2.2.2.1⟩

/-! ### Reservation scaling (`reduce_service_reservation`, reduce-reservations.py) -/

/-- Python `int()` truncation toward zero on a rational. -/
def truncQ (q : ℚ) : Int := if 0 ≤ q then ⌊q⌋ else ⌈q⌉

/-- `format_memory` (reduce-reservations.py lines 34-36): `f"{mb}M"`. -/
def format_memory (mb : Int) : String := toString mb ++ "M"

/-- The change dict built by `reduce_service_reservation`
(`{service, old, new, old_mb, new_mb}`). -/
structure ReservationChange where
  service : String
  old : Node
  new : String
  old_mb : Int
  new_mb : Int

/-- `reduce_service_reservation` (reduce-reservations.py lines 39-66): walk
`deploy.resources.reservations` with `.get(…, {})` defaults; if `memory` is
absent return `None` with no write; otherwise parse it, compute
`max(32, int(old_mb * factor))` — the floor is the literal 32 of the source;
the `--min-memory` option parsed in `main` is never passed in — skip when the
value is unchanged, else write `format_memory(new_mb)` in place and return
the change row.  Every caught exception (unparseable value, non-mapping node
on the path) hits the `except` handler, which warns and returns `None`
leaving the service untouched: all those paths give `(none, svc)`. -/
def reduce_service_reservation (service_name : String) (svc : Mapping) (factor : ℚ) :
    Option ReservationChange × Mapping :=
  match dlookup svc "deploy" with
  | Option.none => (Option.none, svc)
  | some (Node.map deploy) =>
    match dlookup deploy "resources" with
    | Option.none => (Option.none, svc)
    | some (Node.map resources) =>
      match dlookup resources "reservations" with
      | Option.none => (Option.none, svc)
      | some (Node.map reservations) =>
        match dlookup reservations "memory" with
        | Option.none => (Option.none, svc)
        | some old_value =>
          match parse_memory_node old_value with
          | Option.none => (Option.none, svc)
          | some old_mb =>
            let new_mb := max 32 (truncQ ((old_mb : ℚ) * factor))
            if old_mb = new_mb then (Option.none, svc)
            else
              let reservations1 := dset reservations "memory"
                (Node.str (format_memory new_mb))
              let resources1 := dset resources "reservations" (Node.map reservations1)
              let deploy1 := dset deploy "resources" (Node.map resources1)
              let svc1 := dset svc "deploy" (Node.map deploy1)
              (some ⟨service_name, old_value, format_memory new_mb, old_mb, new_mb⟩, svc1)
      | some _ => (Option.none, svc)
    | some _ => (Option.none, svc)
  | some _ => (Option.none, svc)

/-- Whether a service config has the full
`deploy.resources.reservations.memory` path present through mappings. -/
def hasReservationMemory (svc : Mapping) : Bool :=
  match dlookup svc "deploy" with
  | some (Node.map deploy) =>
    match dlookup deploy "resources" with
    | some (Node.map resources) =>
      match dlookup resources "reservations" with
      | some (Node.map reservations) => (dlookup reservations "memory").isSome
      | _ => false
    | _ => false
  | _ => false

/-- The per-service loop of `main` (reduce-reservations.py lines 97-100):
iterate over `services.items()` in declaration order, mutate each service
config in place, and collect the non-`None` change rows.  A service whose
config is not a mapping raises inside `reduce_service_reservation` and is
skipped by its `except` handler. -/
def apply_reservations (services : Mapping) (factor : ℚ) :
    Mapping × List ReservationChange :=
  match services with
  | [] => ([], [])
  | (name, Node.map svc) :: rest =>
      let r := reduce_service_reservation name svc factor
      let r2 := apply_reservations rest factor
      ((name, Node.map r.2) :: r2.1, r.1.toList ++ r2.2)
  | (name, node) :: rest =>
      let r2 := apply_reservations rest factor
      ((name, node) :: r2.1, r2.2)

/-- Truncation toward zero of an integer is the identity. -/
theorem truncQ_intCast (n : ℤ) : truncQ (n : ℚ) = n := by
  unfold truncQ
  split
  · exact Int.floor_intCast n
  · exact Int.ceil_intCast n

/-- The write path of `reduce_service_reservation`: when the whole
`deploy.resources.reservations.memory` chain is present, the value parses,
and the scaled value differs, the new value is written in place and a change
row is returned. -/
theorem scale_memory_writes (name : String)
    (svc deploy resources reservations : Mapping) (factor : ℚ) (old : Node) (v w : Int)
    (h1 : dlookup svc "deploy" = some (Node.map deploy))
    (h2 : dlookup deploy "resources" = some (Node.map resources))
    (h3 : dlookup resources "reservations" = some (Node.map reservations))
    (h4 : dlookup reservations "memory" = some old)
    (h5 : parse_memory_node old = some v)
    (h6 : max 32 (truncQ ((v : ℚ) * factor)) = w)
    (h7 : v ≠ w) :
    reduce_service_reservation name svc factor =
      (some ⟨name, old, format_memory w, v, w⟩,
       dset svc "deploy" (Node.map (dset deploy "resources" (Node.map
         (dset resources "reservations" (Node.map
           (dset reservations "memory" (Node.str (format_memory w))))))))) := by
  unfold reduce_service_reservation
  simp only [h1, h2, h3, h4, h5, h6]
  rw [if_neg h7]

/-- The parse-failure path of `reduce_service_reservation`: an unparseable
value raises `ValueError`, which the handler turns into `None` with no
write. -/
theorem scale_memory_parse_error (name : String)
    (svc deploy resources reservations : Mapping) (factor : ℚ) (old : Node)
    (h1 : dlookup svc "deploy" = some (Node.map deploy))
    (h2 : dlookup deploy "resources" = some (Node.map resources))
    (h3 : dlookup resources "reservations" = some (Node.map reservations))
    (h4 : dlookup reservations "memory" = some old)
    (h5 : parse_memory_node old = Option.none) :
    reduce_service_reservation name svc factor = (Option.none, svc) := by
  unfold reduce_service_reservation
  simp only [h1, h2, h3, h4, h5]

/-- C7: ScaleMemory is idempotent — whenever the current parsed value `v`
already satisfies `v = max(32, truncate(v * factor))` (the code's floor is
32), `reduce_service_reservation` emits no change row, performs no write,
and returns the service config unchanged. -/
theorem scale_memory_idempotent (name : String)
    (svc deploy resources reservations : Mapping) (factor : ℚ) (old : Node) (v : Int)
    (h1 : dlookup svc "deploy" = some (Node.map deploy))
    (h2 : dlookup deploy "resources" = some (Node.map resources))
    (h3 : dlookup resources "reservations" = some (Node.map reservations))
    (h4 : dlookup reservations "memory" = some old)
    (h5 : parse_memory_node old = some v)
    (h6 : v = max 32 (truncQ ((v : ℚ) * factor))) :
    reduce_service_reservation name svc factor = (Option.none, svc) := by
  unfold reduce_service_reservation
  simp only [h1, h2, h3, h4, h5]
  exact if_pos h6

/-- Witness for C7: a service whose reservation is already at the fixed
point (value 50, factor 1) is untouched by a second application. -/
theorem scale_memory_idempotent_witness :
    reduce_service_reservation "svc"
      [("deploy", Node.map [("resources", Node.map
        [("reservations", Node.map [("memory", Node.int 50)])])])] 1 =
      (Option.none,
       [("deploy", Node.map [("resources", Node.map
        [("reservations", Node.map [("memory", Node.int 50)])])])]) :=
  scale_memory_idempotent "svc" _ _ _ _ 1 (Node.int 50) 50 rfl rfl rfl rfl rfl
    (by rw [show ((50 : ℤ) : ℚ) * 1 = ((50 : ℤ) : ℚ) by norm_num, truncQ_intCast]; decide)

/-- C9: a service with no `reservations.memory` key — including when `deploy`,
`resources` or `reservations` is absent or not a mapping — is a no-op: no
change row and no write, the config returned exactly as given. -/
theorem scale_memory_missing_noop (name : String) (svc : Mapping) (factor : ℚ)
    (h : hasReservationMemory svc = false) :
    reduce_service_reservation name svc factor = (Option.none, svc) := by
  cases h1 : dlookup svc "deploy" with
  | none => simp [reduce_service_reservation, h1]
  | some n1 =>
    cases n1
    case map deploy =>
      cases h2 : dlookup deploy "resources" with
      | none => simp [reduce_service_reservation, h1, h2]
      | some n2 =>
        cases n2
        case map resources =>
          cases h3 : dlookup resources "reservations" with
          | none => simp [reduce_service_reservation, h1, h2, h3]
          | some n3 =>
            cases n3
            case map reservations =>
              cases h4 : dlookup reservations "memory" with
              | none => simp [reduce_service_reservation, h1, h2, h3, h4]
              | some old =>
                exfalso
                simp [hasReservationMemory, h1, h2, h3, h4] at h
            all_goals simp [reduce_service_reservation, h1, h2, h3]
        all_goals simp [reduce_service_reservation, h1, h2]
    all_goals simp [reduce_service_reservation, h1]

/-- Witness for C9: the empty service config. -/
theorem scale_memory_missing_noop_witness :
    hasReservationMemory [] = false ∧
    reduce_service_reservation "svc" [] (1 / 2) = (Option.none, []) :=
  ⟨rfl, scale_memory_missing_noop "svc" [] (1 / 2) rfl⟩

/-- C3: the floor is hardcoded — on a reservation of 50 with factor 1/2 the
code writes `max(32, 25) = 32` (`"32M"`), regardless of any configured
minimum: `reduce_service_reservation` takes no floor parameter (`main` parses
`--min-memory` but never passes it), while the claimed formula
`max(floor, truncate(v * factor))` at floor 10 would give 25, not 32. -/
theorem reduce_floor_is_hardcoded_32 :
    reduce_service_reservation "cassandra"
      [("deploy", Node.map [("resources", Node.map
        [("reservations", Node.map [("memory", Node.int 50)])])])] (1 / 2) =
      (some ⟨"cassandra", Node.int 50, "32M", 50, 32⟩,
       [("deploy", Node.map [("resources", Node.map
        [("reservations", Node.map [("memory", Node.str "32M")])])])]) ∧
    max 10 (truncQ ((50 : ℚ) * (1 / 2))) = 25 := by
  constructor
  · rw [scale_memory_writes "cassandra"
      [("deploy", Node.map [("resources", Node.map
        [("reservations", Node.map [("memory", Node.int 50)])])])]
      [("resources", Node.map [("reservations", Node.map [("memory", Node.int 50)])])]
      [("reservations", Node.map [("memory", Node.int 50)])]
      [("memory", Node.int 50)] (1 / 2) (Node.int 50) 50 32
      rfl rfl rfl rfl rfl
      (by rw [show ((50 : ℤ) : ℚ) * (1 / 2) = ((25 : ℤ) : ℚ) by norm_num, truncQ_intCast]
          decide)
      (by decide)]
    rfl
  · rw [show ((50 : ℚ) * (1 / 2)) = ((25 : ℤ) : ℚ) by norm_num, truncQ_intCast]
    decide

/-- C6 counterexample: a `ParseError` does not abort the batch.  In a batch
where service `"a"` has the unparseable reservation `"bogus"` and service
`"b"` is declared after it, the loop still applies the edit to `"b"`: `"b"`
is rewritten to `"50M"` and its change row is emitted, while `"a"` is only
skipped with a warning. -/
theorem parse_error_does_not_abort_batch :
    apply_reservations
      [("a", Node.map [("deploy", Node.map [("resources", Node.map
          [("reservations", Node.map [("memory", Node.str "bogus")])])])]),
       ("b", Node.map [("deploy", Node.map [("resources", Node.map
          [("reservations", Node.map [("memory", Node.int 100)])])])])] (1 / 2) =
      ([("a", Node.map [("deploy", Node.map [("resources", Node.map
          [("reservations", Node.map [("memory", Node.str "bogus")])])])]),
        ("b", Node.map [("deploy", Node.map [("resources", Node.map
          [("reservations", Node.map [("memory", Node.str "50M")])])])])],
       [⟨"b", Node.int 100, "50M", 100, 50⟩]) ∧
    parse_memory_node (Node.str "bogus") = Option.none := by
  have ha : reduce_service_reservation "a"
      [("deploy", Node.map [("resources", Node.map
          [("reservations", Node.map [("memory", Node.str "bogus")])])])] (1 / 2) =
      (Option.none,
       [("deploy", Node.map [("resources", Node.map
          [("reservations", Node.map [("memory", Node.str "bogus")])])])]) :=
    scale_memory_parse_error "a" _ _ _ _ (1 / 2) (Node.str "bogus") rfl rfl rfl rfl rfl
  have hb : reduce_service_reservation "b"
      [("deploy", Node.map [("resources", Node.map
          [("reservations", Node.map [("memory", Node.int 100)])])])] (1 / 2) =
      (some ⟨"b", Node.int 100, "50M", 100, 50⟩,
       [("deploy", Node.map [("resources", Node.map
          [("reservations", Node.map [("memory", Node.str "50M")])])])]) := by
    rw [scale_memory_writes "b"
      [("deploy", Node.map [("resources", Node.map
        [("reservations", Node.map [("memory", Node.int 100)])])])]
      [("resources", Node.map [("reservations", Node.map [("memory", Node.int 100)])])]
      [("reservations", Node.map [("memory", Node.int 100)])]
      [("memory", Node.int 100)] (1 / 2) (Node.int 100) 100 50
      rfl rfl rfl rfl rfl
      (by rw [show ((100 : ℤ) : ℚ) * (1 / 2) = ((50 : ℤ) : ℚ) by norm_num, truncQ_intCast]
          decide)
      (by decide)]
    rfl
  refine ⟨?_, rfl⟩
  simp only [apply_reservations, ha, hb]
  rfl

/-- C6 amended: a `ParseError` is caught per service — the failing edit
becomes a no-op (no change row, no write for that service) and the loop
continues, applying every subsequent edit of the batch exactly as it would
have. -/
theorem parse_error_skips_service_and_continues (name : String)
    (svc deploy resources reservations : Mapping) (rest : Mapping)
    (factor : ℚ) (old : Node)
    (h1 : dlookup svc "deploy" = some (Node.map deploy))
    (h2 : dlookup deploy "resources" = some (Node.map resources))
    (h3 : dlookup resources "reservations" = some (Node.map reservations))
    (h4 : dlookup reservations "memory" = some old)
    (h5 : parse_memory_node old = Option.none) :
    apply_reservations ((name, Node.map svc) :: rest) factor =
      ((name, Node.map svc) :: (apply_reservations rest factor).1,
       (apply_reservations rest factor).2) := by
  have ha := scale_memory_parse_error name svc deploy resources reservations factor old
    h1 h2 h3 h4 h5
  simp only [apply_reservations, ha, Option.toList_none, List.nil_append]

/-- Witness for the amended C6: the failing service `"a"` alone, with an
empty remainder of the batch. -/
theorem parse_error_skips_service_witness :
    apply_reservations
      [("a", Node.map [("deploy", Node.map [("resources", Node.map
          [("reservations", Node.map [("memory", Node.str "bogus")])])])])] (1 / 2) =
      (("a", Node.map [("deploy", Node.map [("resources", Node.map
          [("reservations", Node.map [("memory", Node.str "bogus")])])])]) ::
         (apply_reservations [] (1 / 2)).1,
       (apply_reservations [] (1 / 2)).2) :=
  parse_error_skips_service_and_continues "a" _ _ _ _ [] (1 / 2) (Node.str "bogus")
    rfl rfl rfl rfl rfl

/-! ### Environment normalizer (update_service, update_cassandra, update_qdrant) -/

/-- Split a character list at the first `=`: the Python combination of
`'=' in item` and `item.split('=', 1)`; `Option.none` when there is no `=`. -/
def splitEqList : List Char → Option (List Char × List Char)
  | [] => Option.none
  | c :: rest =>
      if c = '=' then some ([], rest)
      else (splitEqList rest).map fun p => (c :: p.1, p.2)

/-- Split a string on its first `=` into key and value. -/
def splitEq (s : String) : Option (String × String) :=
  (splitEqList s.data).map fun p => (String.mk p.1, String.mk p.2)

/-- Python `f"{k}={v}"`. -/
def joinEq (p : String × String) : String := String.mk (p.1.data ++ '=' :: p.2.data)

/-- The env-list parse loop shared by the three update functions: build an
ordered dict from the `KEY=VALUE` entries in order, skipping entries without
`=`. -/
def envToDict (items : List String) : List (String × String) :=
  items.foldl (fun d item =>
    match splitEq item with
    | some p => dset d p.1 p.2
    | Option.none => d) []

/-- Write an env dict back as a list of `KEY=VALUE` strings in dict order. -/
def envFromDict (d : List (String × String)) : List String := d.map joinEq

/-- An environment block: physically a sequence of `KEY=VALUE` strings or a
mapping. -/
inductive EnvNode where
  | list : List String → EnvNode
  | dict : List (String × String) → EnvNode
  deriving DecidableEq

/-- The environment upsert of `update_service` (reduce-pulsar-memory.py lines
66-88) and `update_cassandra` (reduce-cassandra.py lines 47-67): a list is
converted to a dict, assigned, and converted back (the result is written in
list form); a dict is assigned in place (staying a dict). -/
def upsertEnv (env : EnvNode) (key val : String) : EnvNode :=
  match env with
  | .list items => .list (envFromDict (dset (envToDict items) key val))
  | .dict d => .dict (dset d key val)

/-- The physical shape of an environment block. -/
inductive EnvShape where
  | list | dict
  deriving DecidableEq

/-- The canonicalization half of the list/dict branches of `update_qdrant`
(reduce-qdrant.py lines 55-79): a list is parsed into an ordered dict
(entries without `=` dropped) and tagged with its shape; a mapping is used as
is. -/
def to_canonical : EnvNode → List (String × String) × EnvShape
  | .list items => (envToDict items, .list)
  | .dict d => (d, .dict)

/-- The write-back half: list shape emits `KEY=VALUE` strings in dict order,
mapping shape emits the mapping itself. -/
def from_canonical (d : List (String × String)) : EnvShape → EnvNode
  | .list => .list (envFromDict d)
  | .dict => .dict d

/-- Splitting rejoins: if a string splits as `(k, v)` then `k ++ "=" ++ v` is
the original string. -/
theorem splitEqList_join :
    ∀ cs a b, splitEqList cs = some (a, b) → a ++ '=' :: b = cs := by
  intro cs
  induction cs with
  | nil => intro a b h; simp [splitEqList] at h
  | cons c rest ih =>
      intro a b h
      by_cases hc : c = '='
      · subst hc
        have h0 : splitEqList ('=' :: rest) = some ([], rest) := rfl
        rw [h0] at h
        have h3 := Option.some.inj h
        have h4 : ([] : List Char) = a := congrArg Prod.fst h3
        have h5 : rest = b := congrArg Prod.snd h3
        subst h4
        subst h5
        rfl
      · have h0 : splitEqList (c :: rest) =
            (splitEqList rest).map fun p => (c :: p.1, p.2) := by
          simp [splitEqList, hc]
        rw [h0] at h
        cases hsr : splitEqList rest with
        | none => rw [hsr] at h; simp at h
        | some p =>
            rw [hsr] at h
            have h3 := Option.some.inj h
            have h4 : c :: p.1 = a := congrArg Prod.fst h3
            have h5 : p.2 = b := congrArg Prod.snd h3
            subst h4
            subst h5
            have hr := ih p.1 p.2 (by rw [hsr])
            calc (c :: p.1) ++ '=' :: p.2 = c :: (p.1 ++ '=' :: p.2) := rfl
            _ = c :: rest := by rw [hr]

/-- Building a string from a character list is injective into equality with a
string having those characters. -/
theorem stringMk_eq (a : List Char) (s : String) (h : a = s.data) :
    String.mk a = s := by
  cases s
  simp [h]

/-- String-level rejoining. -/
theorem splitEq_join (s : String) (k v : String) (h : splitEq s = some (k, v)) :
    joinEq (k, v) = s := by
  unfold splitEq at h
  cases hs : splitEqList s.data with
  | none => rw [hs] at h; simp at h
  | some p =>
      rw [hs] at h
      have h2 : some (String.mk p.1, String.mk p.2) = some (k, v) := h
      have h3 := Option.some.inj h2
      have h4 : String.mk p.1 = k := congrArg Prod.fst h3
      have h5 : String.mk p.2 = v := congrArg Prod.snd h3
      subst h4
      subst h5
      exact stringMk_eq _ s (splitEqList_join s.data p.1 p.2 (by rw [hs]))

/-- Splitting happens at the first `=` only. -/
theorem splitEq_first (a b : List Char) (h : '=' ∉ a) :
    splitEq (String.mk (a ++ '=' :: b)) = some (String.mk a, String.mk b) := by
  unfold splitEq
  have key : ∀ a : List Char, '=' ∉ a →
      splitEqList (a ++ '=' :: b) = some (a, b) := by
    intro a
    induction a with
    | nil => intro _; rfl
    | cons c rest ih =>
        intro hne
        have hc : c ≠ '=' := fun hc => hne (hc ▸ List.mem_cons_self c rest)
        have h2 : '=' ∉ rest := fun hm => hne (List.mem_cons_of_mem c hm)
        have h0 : splitEqList ((c :: rest) ++ '=' :: b) =
            (splitEqList (rest ++ '=' :: b)).map fun p => (c :: p.1, p.2) := by
          simp [splitEqList, hc]
        rw [h0, ih h2]
        rfl
  rw [show (String.mk (a ++ '=' :: b)).data = a ++ '=' :: b from rfl, key a h]
  rfl

/-- Assigning a fresh key appends it at the end. -/
theorem dset_append {α : Type} (d : List (String × α)) (k : String) (v : α)
    (h : k ∉ d.map Prod.fst) : dset d k v = d ++ [(k, v)] := by
  induction d with
  | nil => rfl
  | cons p rest ih =>
      obtain ⟨k', v'⟩ := p
      have hk : k' ≠ k := fun he => h (by simp [he])
      have hr : k ∉ rest.map Prod.fst := fun hm => h (by
        simp only [List.map_cons, List.mem_cons]
        exact Or.inr hm)
      simp only [dset, if_neg hk, List.cons_append, List.cons.injEq, true_and]
      exact ih hr

/-- Pointwise replacement at an absent key changes nothing. -/
theorem map_replace_id {α : Type} (d : List (String × α)) (key : String) (val : α)
    (h : key ∉ d.map Prod.fst) :
    (d.map fun p => if p.1 = key then (key, val) else p) = d := by
  induction d with
  | nil => rfl
  | cons p rest ih =>
      have hk : p.1 ≠ key := fun he => h (by simp [he])
      have hr : key ∉ rest.map Prod.fst := fun hm => h (by
        simp only [List.map_cons, List.mem_cons]
        exact Or.inr hm)
      simp only [List.map_cons, if_neg hk, List.cons.injEq, true_and]
      exact ih hr

/-- On a dict with distinct keys, assignment to a present key is pointwise
replacement: the entry keeps its position. -/
theorem dset_replace {α : Type} (d : List (String × α)) (key : String) (val : α)
    (hnd : (d.map Prod.fst).Nodup) (h : key ∈ d.map Prod.fst) :
    dset d key val = d.map fun p => if p.1 = key then (key, val) else p := by
  induction d with
  | nil => simp at h
  | cons p rest ih =>
      obtain ⟨k', v'⟩ := p
      simp only [List.map_cons, List.nodup_cons] at hnd
      by_cases hk : k' = key
      · subst hk
        have e1 : dset ((k', v') :: rest) k' val = (k', val) :: rest := by
          simp [dset]
        have e2 : ((k', v') :: rest).map (fun p => if p.1 = k' then (k', val) else p) =
            (k', val) :: rest := by
          simp [map_replace_id rest k' val hnd.1]
        rw [e1, e2]
      · have hmem : key ∈ rest.map Prod.fst := by
          simp only [List.map_cons, List.mem_cons] at h
          rcases h with h | h
          · exact absurd h.symm hk
          · exact h
        simp only [dset, if_neg hk, List.map_cons, if_neg hk, List.cons.injEq, true_and]
        exact ih hnd.2 hmem

/-- Keys of the assignment entries of an env list, in order. -/
def envKeys (items : List String) : List String :=
  (items.filterMap splitEq).map Prod.fst

/-- The env parse fold, with accumulator: when the keys are distinct (and
fresh for the accumulator), the fold appends the split pairs in order. -/
theorem envToDict_go (items : List String) :
    ∀ acc : List (String × String),
      (∀ k ∈ acc.map Prod.fst, k ∉ envKeys items) → (envKeys items).Nodup →
      items.foldl (fun d item =>
        match splitEq item with
        | some p => dset d p.1 p.2
        | Option.none => d) acc = acc ++ items.filterMap splitEq := by
  induction items with
  | nil => intro acc _ _; simp
  | cons s rest ih =>
      intro acc hdisj hnd
      cases hsp : splitEq s with
      | none =>
          have hk : envKeys (s :: rest) = envKeys rest := by
            simp [envKeys, List.filterMap_cons, hsp]
          rw [hk] at hdisj hnd
          simp only [List.foldl_cons, hsp]
          rw [ih acc hdisj hnd]
          simp [List.filterMap_cons, hsp]
      | some p =>
          have hk : envKeys (s :: rest) = p.1 :: envKeys rest := by
            simp [envKeys, List.filterMap_cons, hsp]
          rw [hk] at hdisj hnd
          have hfresh : p.1 ∉ acc.map Prod.fst := fun hm =>
            hdisj p.1 hm (List.mem_cons_self p.1 _)
          simp only [List.foldl_cons, hsp]
          rw [dset_append acc p.1 p.2 hfresh]
          have hp : (p.1, p.2) = p := rfl
          rw [hp, ih (acc ++ [p]) ?_ (List.nodup_cons.mp hnd).2]
          · simp [List.filterMap_cons, hsp]
          · intro k hkm
            simp only [List.map_append, List.mem_append] at hkm
            rcases hkm with hkm | hkm
            · exact fun hcon => hdisj k hkm (List.mem_cons_of_mem _ hcon)
            · simp at hkm
              subst hkm
              exact (List.nodup_cons.mp hnd).1

/-- With distinct keys, parsing an env list yields exactly its split pairs in
order. -/
theorem envToDict_eq (items : List String) (hnd : (envKeys items).Nodup) :
    envToDict items = items.filterMap splitEq := by
  simpa using envToDict_go items [] (by simp) hnd

/-- Writing the split pairs back re-emits exactly the entries that contained
an `=`, in order. -/
theorem envFromDict_filterMap (items : List String) :
    envFromDict (items.filterMap splitEq) =
      items.filter fun s => (splitEq s).isSome := by
  induction items with
  | nil => rfl
  | cons s rest ih =>
      cases hsp : splitEq s with
      | none =>
          rw [List.filterMap_cons_none hsp, ih,
            List.filter_cons_of_neg (by rw [hsp]; simp)]
      | some p =>
          have hj : joinEq p = s := splitEq_join s p.1 p.2 (by rw [hsp])
          rw [List.filterMap_cons_some hsp,
            List.filter_cons_of_pos (by rw [hsp]; rfl)]
          show joinEq p :: envFromDict (rest.filterMap splitEq) = _
          rw [hj, ih]

/-- Writing back after a pointwise key replacement rewrites exactly the
matching entry, in place. -/
theorem envFromDict_replace (items : List String) (key val : String)
    (hall : ∀ s ∈ items, (splitEq s).isSome) :
    envFromDict ((items.filterMap splitEq).map
        fun p => if p.1 = key then (key, val) else p) =
      items.map fun s =>
        if (splitEq s).map Prod.fst = some key then joinEq (key, val) else s := by
  induction items with
  | nil => rfl
  | cons s rest ih =>
      have hs := hall s (List.mem_cons_self s rest)
      cases hsp : splitEq s with
      | none => rw [hsp] at hs; simp at hs
      | some p =>
          have hj : joinEq p = s := splitEq_join s p.1 p.2 (by rw [hsp])
          have ih2 := ih fun x hx => hall x (List.mem_cons_of_mem s hx)
          rw [List.filterMap_cons_some hsp, List.map_cons, List.map_cons, hsp]
          by_cases hk : p.1 = key
          · rw [if_pos hk, if_pos (by simp [hk])]
            show joinEq (key, val) :: envFromDict _ = _
            rw [ih2]
          · rw [if_neg hk, if_neg (by
              intro hcon
              exact hk (Option.some.inj (by simpa using hcon)))]
            show joinEq p :: envFromDict _ = _
            rw [hj, ih2]

/-- C4: env-list upsert — on `["A=1","B=2"]`, setting `B` to `9` and then `C`
to `3` yields `["A=1","B=9","C=3"]`; in general the result is always written
back as a List (never converted to a Mapping), and on a list of assignment
entries with distinct keys an existing key is rewritten in place at its
original position while a new key is appended at the end. -/
theorem upsert_env_spec :
    upsertEnv (upsertEnv (EnvNode.list ["A=1", "B=2"]) "B" "9") "C" "3" =
      EnvNode.list ["A=1", "B=9", "C=3"] ∧
    (∀ (items : List String) (key val : String),
      ∃ items2, upsertEnv (EnvNode.list items) key val = EnvNode.list items2) ∧
    (∀ (items : List String) (key val : String),
      (∀ s ∈ items, (splitEq s).isSome) → (envKeys items).Nodup →
      upsertEnv (EnvNode.list items) key val =
        EnvNode.list
          (if key ∈ envKeys items then
            items.map fun s =>
              if (splitEq s).map Prod.fst = some key then joinEq (key, val) else s
          else items ++ [joinEq (key, val)])) := by
  refine ⟨by decide, fun items key val => ⟨_, rfl⟩, ?_⟩
  intro items key val hall hnd
  show EnvNode.list (envFromDict (dset (envToDict items) key val)) = _
  rw [envToDict_eq items hnd]
  by_cases hk : key ∈ envKeys items
  · rw [if_pos hk, dset_replace _ key val hnd hk, envFromDict_replace items key val hall]
  · rw [if_neg hk, dset_append _ key val hk]
    show EnvNode.list (List.map joinEq _) = _
    rw [List.map_append]
    show EnvNode.list (envFromDict _ ++ [joinEq (key, val)]) = _
    rw [envFromDict_filterMap, List.filter_eq_self.mpr hall]

/-- Witness for C4: upsert of the existing key `A` on the one-entry list
`["A=1"]`. -/
theorem upsert_env_spec_witness :
    (∀ s ∈ ["A=1"], (splitEq s).isSome) ∧ (envKeys ["A=1"]).Nodup ∧
    upsertEnv (EnvNode.list ["A=1"]) "A" "2" =
      EnvNode.list
        (if "A" ∈ envKeys ["A=1"] then
          ["A=1"].map fun s =>
            if (splitEq s).map Prod.fst = some "A" then joinEq ("A", "2") else s
        else ["A=1"] ++ [joinEq ("A", "2")]) :=
  ⟨by decide, by decide, upsert_env_spec.2.2 ["A=1"] "A" "2" (by decide) (by decide)⟩

/-- C8: environment round-trip — for a List-shaped block with distinct keys,
`from_canonical (to_canonical env)` returns a List equal to the original with
exactly the non-assignment entries (no `=`) removed; a Mapping-shaped block
round-trips unchanged; and each List element is split on the first `=`
only. -/
theorem env_round_trip :
    (∀ items : List String, (envKeys items).Nodup →
      from_canonical (to_canonical (EnvNode.list items)).1
          (to_canonical (EnvNode.list items)).2 =
        EnvNode.list (items.filter fun s => (splitEq s).isSome)) ∧
    (∀ d : List (String × String),
      from_canonical (to_canonical (EnvNode.dict d)).1
          (to_canonical (EnvNode.dict d)).2 = EnvNode.dict d) ∧
    (∀ a b : List Char, '=' ∉ a →
      splitEq (String.mk (a ++ '=' :: b)) = some (String.mk a, String.mk b)) := by
  refine ⟨?_, fun d => rfl, splitEq_first⟩
  intro items hnd
  show EnvNode.list (envFromDict (envToDict items)) = _
  rw [envToDict_eq items hnd, envFromDict_filterMap]

/-- Witness for C8: a list with one assignment and one bare flag. -/
theorem env_round_trip_witness :
    (envKeys ["A=1", "FLAG"]).Nodup ∧
    from_canonical (to_canonical (EnvNode.list ["A=1", "FLAG"])).1
        (to_canonical (EnvNode.list ["A=1", "FLAG"])).2 =
      EnvNode.list (["A=1", "FLAG"].filter fun s => (splitEq s).isSome) :=
  ⟨by decide, env_round_trip.1 ["A=1", "FLAG"] (by decide)⟩

/-! ### Diff engine (flatten_dict and compare_yaml, yaml-diff.py) -/

mutual

/-- `flatten_dict` (yaml-diff.py lines 15-31) over mapping entries with an
accumulated parent key: nested mappings recurse with `parent.key`. -/
def flattenMap (pfx : String) : List (String × Node) → Option (List (String × Node))
  | [] => some []
  | (k, v) :: rest => do
      let head ← flattenVal (if pfx = "" then k else pfx ++ "." ++ k) v
      let tail ← flattenMap pfx rest
      return head ++ tail

/-- Flatten one value at its key: a mapping recurses; a nonempty list whose
first element is a mapping is flattened entrywise with `[i]` indices (a
non-mapping element among them makes Python call `.items()` on a non-dict
and raise — modelled `Option.none`); any other value, lists included, is one
scalar-equivalent entry at its own key. -/
def flattenVal (key : String) : Node → Option (List (String × Node))
  | .map m => flattenMap key m
  | .seq items =>
      match items with
      | [] => some [(key, .seq [])]
      | first :: _ =>
          match first with
          | .map _ => flattenSeq key 0 items
          | _ => some [(key, .seq items)]
  | v => some [(key, v)]

/-- Flatten a list of mappings with bracketed indices. -/
def flattenSeq (key : String) (i : Nat) : List Node → Option (List (String × Node))
  | [] => some []
  | (.map m) :: rest => do
      let head ← flattenMap (key ++ "[" ++ toString i ++ "]") m
      let tail ← flattenSeq key (i + 1) rest
      return head ++ tail
  | _ :: _ => Option.none

end

/-- Python `sorted(set(keys))`: the distinct keys in ascending lexicographic
order (comparison by code point, as Python compares strings). -/
def sortedKeys (l : List String) : List String := l.dedup.mergeSort

/-- The classification loop of `compare_yaml` (yaml-diff.py lines 69-87): for
each key of the sorted union, in order, classify as removed (in the first
document only), added (in the second only), or changed (in both, with values
unequal under Python deep `!=`). -/
def classify (flat1 flat2 : List (String × Node)) :
    List String →
      List (String × Node) × List (String × Node) × List (String × Node × Node)
  | [] => ([], [], [])
  | k :: rest =>
      let r := classify flat1 flat2 rest
      match dlookup flat1 k, dlookup flat2 k with
      | some v1, Option.none => (r.1, (k, v1) :: r.2.1, r.2.2)
      | Option.none, some v2 => ((k, v2) :: r.1, r.2.1, r.2.2)
      | some v1, some v2 =>
          if Node.beq v1 v2 then r else (r.1, r.2.1, (k, v1, v2) :: r.2.2)
      | Option.none, Option.none => r

/-- `compare_yaml` (yaml-diff.py lines 45-89) with no focus section: flatten
both documents, sort the union of their key sets, and classify every key,
returning `(added, removed, changed)`; `Option.none` models the crash on a
list mixing mappings and non-mappings. -/
def compare_docs (d1 d2 : List (String × Node)) :
    Option (List (String × Node) × List (String × Node) ×
      List (String × Node × Node)) := do
  let flat1 ← flattenMap "" d1
  let flat2 ← flattenMap "" d2
  return classify flat1 flat2 (sortedKeys (flat1.map Prod.fst ++ flat2.map Prod.fst))

/-- Deep equality testing is symmetric. -/
theorem beq_comm (a b : Node) : Node.beq a b = Node.beq b a := by
  by_cases h : a = b
  · rw [h]
  · have h1 : Node.beq a b = false := by
      cases hb : Node.beq a b
      · rfl
      · exact absurd ((Node.beq_iff.1 a b).mp hb) h
    have h2 : Node.beq b a = false := by
      cases hb : Node.beq b a
      · rfl
      · exact absurd ((Node.beq_iff.1 b a).mp hb).symm h
    rw [h1, h2]

/-- Deep equality is reflexive. -/
theorem beq_refl (a : Node) : Node.beq a a = true :=
  (Node.beq_iff.1 a a).mpr rfl

/-- The sorted distinct union of two key lists does not depend on the order
of the two sides. -/
theorem sortedKeys_comm (l1 l2 : List String) :
    sortedKeys (l1 ++ l2) = sortedKeys (l2 ++ l1) := by
  apply List.eq_of_perm_of_sorted (r := (· ≤ ·))
  · exact ((List.mergeSort_perm _ _).trans
      (List.perm_append_comm.dedup)).trans (List.mergeSort_perm _ _).symm
  · exact List.sorted_mergeSort' _
  · exact List.sorted_mergeSort' _

/-- Classification over the same key list with the two documents swapped
exchanges added and removed and swaps the old/new values of changed. -/
theorem classify_symm (flat1 flat2 : List (String × Node)) (keys : List String) :
    classify flat1 flat2 keys =
      ((classify flat2 flat1 keys).2.1, (classify flat2 flat1 keys).1,
       (classify flat2 flat1 keys).2.2.map fun c => (c.1, c.2.2, c.2.1)) := by
  induction keys with
  | nil => rfl
  | cons k rest ih =>
      simp only [classify, ih]
      cases h1 : dlookup flat1 k <;> cases h2 : dlookup flat2 k
      case none.none => rfl
      case none.some => rfl
      case some.none => rfl
      case some.some v1 v2 =>
        dsimp only
        rw [beq_comm v1 v2]
        by_cases hv : Node.beq v2 v1 = true
        · rw [if_pos hv, if_pos hv]
        · rw [if_neg hv, if_neg hv]
          rfl

/-- The keys of each classified list form a sublist of the key list. -/
theorem classify_sublists (flat1 flat2 : List (String × Node)) (keys : List String) :
    ((classify flat1 flat2 keys).1.map Prod.fst).Sublist keys ∧
    ((classify flat1 flat2 keys).2.1.map Prod.fst).Sublist keys ∧
    ((classify flat1 flat2 keys).2.2.map Prod.fst).Sublist keys := by
  induction keys with
  | nil => exact ⟨List.Sublist.refl _, List.Sublist.refl _, List.Sublist.refl _⟩
  | cons k rest ih =>
      obtain ⟨iha, ihr, ihc⟩ := ih
      simp only [classify]
      cases dlookup flat1 k <;> cases dlookup flat2 k
      case none.none => exact ⟨iha.cons k, ihr.cons k, ihc.cons k⟩
      case none.some v2 =>
        dsimp only
        exact ⟨iha.cons₂ k, ihr.cons k, ihc.cons k⟩
      case some.none v1 =>
        dsimp only
        exact ⟨iha.cons k, ihr.cons₂ k, ihc.cons k⟩
      case some.some v1 v2 =>
        dsimp only
        by_cases hv : Node.beq v1 v2 = true
        · rw [if_pos hv]
          exact ⟨iha.cons k, ihr.cons k, ihc.cons k⟩
        · rw [if_neg hv]
          exact ⟨iha.cons k, ihr.cons k, ihc.cons₂ k⟩

/-- Classifying a document against an equal flattening yields no entries. -/
theorem classify_self (flat : List (String × Node)) (keys : List String) :
    classify flat flat keys = ([], [], []) := by
  induction keys with
  | nil => rfl
  | cons k rest ih =>
      simp only [classify, ih]
      cases dlookup flat k
      · rfl
      · rename_i v
        dsimp only
        rw [if_pos (beq_refl v)]

/-- C5: diff symmetry — swapping the two documents exchanges the added and
removed lists entrywise (same paths, same values) and swaps old and new in
every changed entry (so both directions report the same set of flattened
paths); and in each direction the added, removed and changed entries are
produced in ascending lexicographic path order. -/
theorem diff_symmetric (d1 d2 : List (String × Node)) :
    compare_docs d1 d2 = (compare_docs d2 d1).map
      (fun r => (r.2.1, r.1, r.2.2.map fun c => (c.1, c.2.2, c.2.1))) ∧
    (∀ a r c, compare_docs d1 d2 = some (a, r, c) →
      List.Sorted (· ≤ ·) (a.map Prod.fst) ∧
      List.Sorted (· ≤ ·) (r.map Prod.fst) ∧
      List.Sorted (· ≤ ·) (c.map Prod.fst)) := by
  constructor
  · unfold compare_docs
    cases hf1 : flattenMap "" d1 with
    | none => cases hf2 : flattenMap "" d2 with
      | none => rfl
      | some fl2 => rfl
    | some fl1 =>
      cases hf2 : flattenMap "" d2 with
      | none => rfl
      | some fl2 =>
          show some (classify fl1 fl2 _) = some _
          rw [sortedKeys_comm]
          exact congrArg some (classify_symm fl1 fl2 _)
  · intro a r c h
    unfold compare_docs at h
    cases hf1 : flattenMap "" d1 with
    | none => rw [hf1] at h; exact absurd h (by simp)
    | some fl1 =>
      cases hf2 : flattenMap "" d2 with
      | none => rw [hf1, hf2] at h; exact absurd h (by simp)
      | some fl2 =>
          rw [hf1, hf2] at h
          have h2 : classify fl1 fl2
              (sortedKeys (fl1.map Prod.fst ++ fl2.map Prod.fst)) = (a, r, c) :=
            Option.some.inj h
          have hsorted : List.Sorted (· ≤ ·)
              (sortedKeys (fl1.map Prod.fst ++ fl2.map Prod.fst)) :=
            List.sorted_mergeSort' _
          obtain ⟨hs1, hs2, hs3⟩ := classify_sublists fl1 fl2
            (sortedKeys (fl1.map Prod.fst ++ fl2.map Prod.fst))
          rw [h2] at hs1 hs2 hs3
          exact ⟨List.Pairwise.sublist hs1 hsorted, List.Pairwise.sublist hs2 hsorted,
            List.Pairwise.sublist hs3 hsorted⟩

/-- Witness for C5: the two empty documents. -/
theorem diff_symmetric_witness :
    compare_docs [] [] = some ([], [], []) ∧
    (List.Sorted (· ≤ ·) (([] : List (String × Node)).map Prod.fst) ∧
     List.Sorted (· ≤ ·) (([] : List (String × Node)).map Prod.fst) ∧
     List.Sorted (· ≤ ·) (([] : List (String × Node × Node)).map Prod.fst)) := by
  have h : compare_docs [] [] = some ([], [], []) := by
    have hf : flattenMap "" [] = some [] := by simp [flattenMap]
    unfold compare_docs
    rw [hf]
    show some (classify [] [] (sortedKeys [])) = _
    simp [sortedKeys, classify]
  exact ⟨h, (diff_symmetric [] []).2 [] [] [] h⟩

/-- C10: a key bound to an empty mapping contributes no flattened path — at
any depth, removing such an entry leaves the flattening unchanged — and two
documents with identical flattenings diff to no added, removed or changed
entries, so adding or removing empty mappings is invisible to the diff. -/
theorem empty_mapping_invisible :
    (∀ (pfx k : String) (pre post : List (String × Node)),
      flattenMap pfx (pre ++ (k, Node.map []) :: post) = flattenMap pfx (pre ++ post)) ∧
    (∀ (d1 d2 fl : List (String × Node)),
      flattenMap "" d1 = some fl → flattenMap "" d2 = some fl →
      compare_docs d1 d2 = some ([], [], [])) := by
  constructor
  · intro pfx k pre post
    induction pre with
    | nil =>
        have hval : flattenVal (if pfx = "" then k else pfx ++ "." ++ k)
            (Node.map []) = some [] := by
          rw [flattenVal, flattenMap]
        simp only [List.nil_append, flattenMap, hval]
        cases flattenMap pfx post <;> rfl
    | cons p pre ih =>
        obtain ⟨k2, v2⟩ := p
        simp only [List.cons_append, flattenMap, List.append_eq, ih]
  · intro d1 d2 fl h1 h2
    unfold compare_docs
    rw [h1, h2]
    show some (classify fl fl (sortedKeys (fl.map Prod.fst ++ fl.map Prod.fst))) = _
    rw [classify_self]

/-- Witness for C10: a document holding one empty mapping flattens like the
empty document, and their diff is empty. -/
theorem empty_mapping_invisible_witness :
    flattenMap "" [("a", Node.map [])] = some [] ∧
    flattenMap "" [] = some [] ∧
    compare_docs [("a", Node.map [])] [] = some ([], [], []) := by
  have h1 : flattenMap "" [("a", Node.map [])] = some [] := by
    simp [flattenMap, flattenVal]
  have h2 : flattenMap "" ([] : List (String × Node)) = some [] := by
    simp [flattenMap]
  exact ⟨h1, h2, empty_mapping_invisible.2 [("a", Node.map [])] [] [] h1 h2⟩

end MemReduce
